import Mathlib

/-!
Verification development for `photo_dog.py`, a sequential photo-gallery
crawler.  The Python source is shallowly embedded: pure helpers
(`normalize_for_match`, `eval_keywords`, `guess_ext`, `sanitize_filename`,
`build_page_url`, the image-URL extractor) become Lean functions on
`String`/`List Char`; the stateful crawl engine becomes explicit state
passing over a `World` (file set plus an effect trace).  External
collaborators (HTTP transport, HTML parser, filesystem) are modelled as
oracles/structures, following the spec's "black box" contracts.

Character-level conventions: Python's `str.lower` and
`unicodedata.normalize("NFKD", ...)` are modelled on ASCII plus the
Latin-1 letter block (a representative finite decomposition table);
percent-decoding is modelled bytewise (multi-byte UTF-8 escape sequences
are not recombined into a single code point).
-/

namespace PhotoDog

/-- Python `str.lower`, modelled for ASCII `A`-`Z` and the Latin-1
uppercase block `À`-`Þ` (excluding `×`), which Python lowercases by
adding 32.  Other characters are left unchanged. -/
def pyLowerChar (c : Char) : Char :=
  if 65 ≤ c.toNat ∧ c.toNat ≤ 90 then Char.ofNat (c.toNat + 32)
  else if 0xC0 ≤ c.toNat ∧ c.toNat ≤ 0xDE ∧ c.toNat ≠ 0xD7 then Char.ofNat (c.toNat + 32)
  else c

/-- Python `str.lower` lifted to strings (Python lowercases the whole string). -/
def strLower (s : String) : String := String.mk (s.data.map pyLowerChar)

/-- Test for `unicodedata.combining ch != 0`: the combining-diacritical block. -/
def isCombining (c : Char) : Bool := decide (0x300 ≤ c.toNat ∧ c.toNat ≤ 0x36F)

/-- Finite model of the NFKD decomposition table used by
`unicodedata.normalize("NFKD", ...)`: each triple is
(precomposed code point, base letter, combining mark).  Covers a
representative subset of the Latin-1 letters (acute/grave/diaeresis/tilde
vowels plus `Ç`/`Ñ` and their lowercase forms). -/
def nfkdTable : List (Nat × Nat × Nat) :=
  [ (0xC0, 65, 0x300), (0xC1, 65, 0x301), (0xC4, 65, 0x308), (0xC3, 65, 0x303),
    (0xC7, 67, 0x327), (0xC8, 69, 0x300), (0xC9, 69, 0x301), (0xCB, 69, 0x308),
    (0xCD, 73, 0x301), (0xCF, 73, 0x308), (0xD1, 78, 0x303), (0xD3, 79, 0x301),
    (0xD6, 79, 0x308), (0xDA, 85, 0x301), (0xDC, 85, 0x308),
    (0xE0, 97, 0x300), (0xE1, 97, 0x301), (0xE4, 97, 0x308), (0xE3, 97, 0x303),
    (0xE7, 99, 0x327), (0xE8, 101, 0x300), (0xE9, 101, 0x301), (0xEB, 101, 0x308),
    (0xED, 105, 0x301), (0xEF, 105, 0x308), (0xF1, 110, 0x303), (0xF3, 111, 0x301),
    (0xF6, 111, 0x308), (0xFA, 117, 0x301), (0xFC, 117, 0x308) ]

/-- NFKD decomposition of a single character (identity outside the table). -/
def nfkdChar (c : Char) : List Char :=
  match nfkdTable.find? (fun t => t.1 = c.toNat) with
  | some t => [Char.ofNat t.2.1, Char.ofNat t.2.2]
  | none => [c]

/-- Decompose a character and drop its combining marks: the per-character
effect of the normalizer's "NFKD then remove combining" stage. -/
def deaccentChar (c : Char) : List Char :=
  (nfkdChar c).filter (fun d => !isCombining d)

/-- Hex digits accepted by `urllib.parse.unquote` (`0-9a-fA-F`). -/
def isHexChar (c : Char) : Bool :=
  decide ((48 ≤ c.toNat ∧ c.toNat ≤ 57) ∨ (97 ≤ c.toNat ∧ c.toNat ≤ 102) ∨
    (65 ≤ c.toNat ∧ c.toNat ≤ 70))

/-- Value of a hex digit. -/
def hexVal (c : Char) : Nat :=
  if 48 ≤ c.toNat ∧ c.toNat ≤ 57 then c.toNat - 48
  else if 97 ≤ c.toNat ∧ c.toNat ≤ 102 then c.toNat - 87
  else if 65 ≤ c.toNat ∧ c.toNat ≤ 70 then c.toNat - 55
  else 0

/-- Model of `urllib.parse.unquote`, bytewise: `%XX` with two hex digits decodes to
the character with that code; otherwise the `%` is kept literally. -/
def unquoteL : List Char → List Char
  | '%' :: h1 :: h2 :: rest =>
    if isHexChar h1 && isHexChar h2 then
      Char.ofNat (16 * hexVal h1 + hexVal h2) :: unquoteL rest
    else
      '%' :: unquoteL (h1 :: h2 :: rest)
  | c :: rest => c :: unquoteL rest
  | [] => []

/-- Concatenated map (used to apply `nfkdChar` across a string). -/
def flatMapL (f : α → List β) : List α → List β
  | [] => []
  | a :: t => f a ++ flatMapL f t

/-- The character class of the normalizer's regex `[^0-9a-z]`
complement: lowercase ASCII alphanumerics. -/
def isLowerAlnum (c : Char) : Bool :=
  decide (('0' ≤ c ∧ c ≤ '9') ∨ ('a' ≤ c ∧ c ≤ 'z'))

/-- Python `\s` (regex) / `str.strip` whitespace. -/
def pyIsSpace (c : Char) : Bool :=
  c == ' ' || c == '\t' || c == '\n' || c == '\r' || c == '\x0b' || c == '\x0c'

/-- Python `str.isalnum`, modelled for ASCII plus Latin-1 letters. -/
def pyIsAlnum (c : Char) : Bool :=
  decide ((48 ≤ c.toNat ∧ c.toNat ≤ 57) ∨
    (97 ≤ c.toNat ∧ c.toNat ≤ 122) ∨ (65 ≤ c.toNat ∧ c.toNat ≤ 90) ∨
    (0xC0 ≤ c.toNat ∧ c.toNat ≤ 0xFF ∧ c.toNat ≠ 0xD7 ∧ c.toNat ≠ 0xF7))

/-- Regex `\w` (with `re.UNICODE`): alphanumeric or underscore. -/
def pyIsWord (c : Char) : Bool := pyIsAlnum c || c == '_'

/-- Single pass of run replacement: the flag records whether the
previous character belonged to a replaced run (in which case further
non-`keep` characters are absorbed into the same `rep`). -/
def replaceRunsAux (keep : Char → Bool) (rep : Char) : Bool → List Char → List Char
  | _, [] => []
  | inRun, c :: rest =>
    if keep c then c :: replaceRunsAux keep rep false rest
    else if inRun then replaceRunsAux keep rep true rest
    else rep :: replaceRunsAux keep rep true rest

/-- Replace every maximal run of characters not satisfying `keep` by the
single character `rep` (the effect of `re.sub(r"[^...]+", rep, s)`). -/
def replaceRunsWith (keep : Char → Bool) (rep : Char) (l : List Char) : List Char :=
  replaceRunsAux keep rep false l

/-- Drop characters satisfying `p` from both ends (Python `str.strip`). -/
def stripEndsL (p : Char → Bool) (l : List Char) : List Char :=
  ((l.dropWhile p).reverse.dropWhile p).reverse

/-- Python substring containment `sub in hay` on char lists. -/
def containsSubL (hay needle : List Char) : Bool :=
  match hay with
  | [] => needle.isEmpty
  | c :: t => needle.isPrefixOf (c :: t) || containsSubL t needle

/-- Python `sub in hay` on strings. -/
def strContains (hay sub : String) : Bool := containsSubL hay.data sub.data

/-! ### URL parsing (`urllib.parse.urlparse` path component, `os.path.basename`) -/

/-- ASCII letter test (for the URL scheme's first character). -/
def asciiAlpha (c : Char) : Bool :=
  decide ((65 ≤ c.toNat ∧ c.toNat ≤ 90) ∨ (97 ≤ c.toNat ∧ c.toNat ≤ 122))

/-- Characters allowed in a URL scheme (`urllib.parse.scheme_chars`). -/
def schemeChar (c : Char) : Bool :=
  asciiAlpha c || decide (48 ≤ c.toNat ∧ c.toNat ≤ 57) || c == '+' || c == '-' || c == '.'

/-- Does the URL start with `scheme:` (first char a letter, rest scheme
characters, colon present past position 0)? -/
def hasScheme (l : List Char) : Bool :=
  let pre := l.takeWhile (fun c => c != ':')
  decide (pre.length < l.length) && !pre.isEmpty &&
    asciiAlpha (pre.headD ' ') && pre.all schemeChar

/-- Drop a leading `scheme:` if present. -/
def dropScheme (l : List Char) : List Char :=
  if hasScheme l then l.drop ((l.takeWhile (fun c => c != ':')).length + 1) else l

/-- Drop a leading `//netloc` if present (the path starts at the next `/`). -/
def dropNetloc (l : List Char) : List Char :=
  match l with
  | '/' :: '/' :: rest => rest.dropWhile (fun c => c != '/')
  | _ => l

/-- Computes `urllib.parse.urlparse(url).path` on char lists: cut fragment and
query, strip the scheme and the network location. -/
def urlPathL (url : List Char) : List Char :=
  dropNetloc (dropScheme ((url.takeWhile (fun c => c != '#')).takeWhile (fun c => c != '?')))

/-- Computes `urllib.parse.urlparse(url).path`. -/
def urlPath (url : String) : String := String.mk (urlPathL url.data)

/-- Computes `os.path.basename`: the part of the path after the last `/`. -/
def basenameOf (p : String) : String :=
  String.mk ((p.data.reverse.takeWhile (fun c => c != '/')).reverse)

/-- The suffix of `p` starting at its last dot (`path[path.rfind("."):]`;
only meaningful when `p` contains a dot). -/
def afterLastDot (p : String) : String :=
  String.mk ('.' :: (p.data.reverse.takeWhile (fun c => c != '.')).reverse)

/-! ### `sanitize_filename` and `guess_ext` -/

/-- Model of `sanitize_filename`: replace every run of characters outside
`[\w\-.]` by `_`, strip leading/trailing `.`/`_`, fall back to "file". -/
def sanitize_filename (name : String) : String :=
  let replaced := replaceRunsWith (fun c => pyIsWord c || c == '-' || c == '.') '_' name.data
  let stripped := stripEndsL (fun c => c == '.' || c == '_') replaced
  if stripped.isEmpty then "file" else String.mk stripped

/-- The `IMG_EXT_FROM_CTYPE` table. -/
def IMG_EXT_FROM_CTYPE : List (String × String) :=
  [ ("image/jpeg", ".jpg"), ("image/jpg", ".jpg"), ("image/png", ".png"),
    ("image/gif", ".gif"), ("image/webp", ".webp"), ("image/bmp", ".bmp"),
    ("image/tiff", ".tiff") ]

/-- Validity test for a URL-derived extension (`len(ext) <= 6 and
all(c.isalnum() or c in "._" for c in ext)`). -/
def extOk (ext : String) : Bool :=
  decide (ext.data.length ≤ 6) && ext.data.all (fun c => pyIsAlnum c || c == '.' || c == '_')

/-- The key `ct.split(";")[0].strip().lower()` computed from a declared content type. -/
def ctypeKey (ct : String) : String :=
  strLower (String.mk (stripEndsL pyIsSpace (ct.data.takeWhile (fun c => c != ';'))))

/-- Model of `guess_ext(url, content_type)`: prefer a short well-formed extension
taken from the URL path's last dot (lowercased); otherwise map a declared
content type through `IMG_EXT_FROM_CTYPE`; otherwise default to ".jpg".
`none`/empty content type model Python's `None`/falsy string. -/
def guess_ext (url : String) (content_type : Option String) : String :=
  let path := urlPath url
  let fromUrl : Option String :=
    if strContains path "." then
      let ext := strLower (afterLastDot path)
      if extOk ext then some ext else none
    else none
  match fromUrl with
  | some e => e
  | none =>
    match content_type with
    | some ct =>
      if ct ≠ "" then
        match IMG_EXT_FROM_CTYPE.lookup (ctypeKey ct) with
        | some e => e
        | none => ".jpg"
      else ".jpg"
    | none => ".jpg"

/-! ### `normalize_for_match`, `parse_keywords`, `eval_keywords` -/

/-- Stages of `normalize_for_match` after percent-decoding: lowercase,
NFKD with combining-mark removal, non-alphanumeric runs to single spaces,
whitespace collapse and trim. -/
def normCore (l : List Char) : List Char :=
  let lowered := l.map pyLowerChar
  let deaccented := (flatMapL nfkdChar lowered).filter (fun d => !isCombining d)
  let spaced := replaceRunsWith isLowerAlnum ' ' deaccented
  stripEndsL pyIsSpace (replaceRunsWith (fun c => !pyIsSpace c) ' ' spaced)

/-- Model of `normalize_for_match`: percent-decode, lowercase, strip diacritics,
replace non-alphanumeric runs by spaces, collapse and trim whitespace. -/
def normalize_for_match (text : String) : String :=
  if text = "" then "" else String.mk (normCore (unquoteL text.data))

/-- Python `str.split(",")` on char lists (empty parts preserved). -/
def splitCommaAux (acc : List Char) : List Char → List (List Char)
  | [] => [acc.reverse]
  | c :: rest =>
    if c = ',' then acc.reverse :: splitCommaAux [] rest
    else splitCommaAux (c :: acc) rest

/-- Python `v.split(",")`. -/
def pySplitComma (s : String) : List String :=
  (splitCommaAux [] s.data).map String.mk

/-- Model of `parse_keywords`: split each value on commas, strip, normalize, and
keep the non-empty results. -/
def parse_keywords (values : List String) : List String :=
  flatMapL
    (fun v =>
      if v = "" then []
      else
        (pySplitComma v).filterMap (fun p =>
          let n := normalize_for_match (String.mk (stripEndsL pyIsSpace p.data))
          if n = "" then none else some n))
    values

/-- The tuple returned by `eval_keywords`:
`(ok, reason, normalized, hits, required, excluded_token)`. -/
structure Verdict where
  ok : Bool
  reason : String
  norm : String
  hits : Nat
  required : Nat
  excluded : Option String
  deriving Repr, DecidableEq

/-- The matching target chosen by `eval_keywords`: the URL path, or just
its final segment when `target = "filename"`, normalized. -/
def normTarget (img_url target : String) : String :=
  let p := urlPath img_url
  normalize_for_match (if target = "filename" then basenameOf p else p)

/-- Model of `eval_keywords(img_url, includes, excludes, any_mode, target)`:
excludes first (first non-empty excluded token contained in the
normalized target fails immediately), then include counting with
any/all semantics. -/
def eval_keywords (img_url : String) (includes excludes : List String)
    (any_mode : Bool) (target : String) : Verdict :=
  let norm := normTarget img_url target
  match excludes.find? (fun ex => ex ≠ "" && strContains norm ex) with
  | some ex =>
    ⟨false, "excluded: " ++ ex, norm, 0, includes.length, some ex⟩
  | none =>
    if includes ≠ [] then
      let hits := includes.countP (fun inc => strContains norm inc)
      if any_mode then
        let ok := decide (1 ≤ hits)
        ⟨ok, if ok then "ok" else "no-include-any (hits=" ++ toString hits ++ "/1)",
          norm, hits, 1, none⟩
      else
        let ok := decide (hits = includes.length)
        ⟨ok, if ok then "ok"
          else "missing-includes (hits=" ++ toString hits ++ "/" ++ toString includes.length ++ ")",
          norm, hits, includes.length, none⟩
    else ⟨true, "ok", norm, 0, 0, none⟩

/-! ### HTML documents and the image-URL extractor

The HTML parser (BeautifulSoup) is an external collaborator; a `Doc`
records the results of the queries the source performs on the parsed
document. -/

/-- Parsed-document model: `ogImage` is the `content` attribute of the
`og:image` meta tag (`none` when the tag or attribute is absent),
`selImgSrcs` the `src` attributes collected by the selector scan
`["#the_image", ".display_media", ".image", ".img-responsive", "img"]`
in scan order, `imgSrcs` the `src` attributes of all `<img>` tags and
`anchorHrefs` the `href` attributes of all `<a href>` tags, in document
order. -/
structure Doc where
  ogImage : Option String
  selImgSrcs : List String
  imgSrcs : List String
  anchorHrefs : List String
  deriving Repr, DecidableEq

/-- A document with nothing in it. -/
def emptyDoc : Doc := ⟨none, [], [], []⟩

/-- Model of `urllib.parse.urljoin(base, url)` for the common cases:
absolute URLs are kept, `//`-URLs adopt the base scheme, `/`-URLs adopt
scheme and netloc, and other URLs are resolved against the base path's
directory.  Dot-segment normalization is not modelled. -/
def urljoin (base url : String) : String :=
  if url = "" then base
  else if hasScheme url.data then url
  else
    let b := (base.data.takeWhile (fun c => c != '#')).takeWhile (fun c => c != '?')
    let bpath := urlPathL base.data
    let beforePath := b.take (b.length - bpath.length)
    if ("//".data).isPrefixOf url.data then
      String.mk (base.data.takeWhile (fun c => c != ':')) ++ ":" ++ url
    else if ("/".data).isPrefixOf url.data then String.mk beforePath ++ url
    else
      let dir := (bpath.reverse.dropWhile (fun c => c != '/')).reverse
      String.mk (beforePath ++ dir) ++ url

/-- The known image file extensions of the extractor's regex. -/
def IMG_EXTS : List String := ["jpg", "jpeg", "png", "gif", "webp", "bmp", "tiff"]

/-- Does `l` end with `.ext` for a known image extension? -/
def endsWithExtL (l : List Char) : Bool :=
  IMG_EXTS.any (fun e => ('.' :: e.data).isSuffixOf l)

/-- Test for `re.search(r"\.(jpg|jpeg|png|gif|webp|bmp|tiff)(\?.*)?$", s, re.I)`:
the string (case-insensitively) ends in a known image extension,
optionally followed by `?` and a query string. -/
def imgExtMatch (s : String) : Bool :=
  let low := s.data.map pyLowerChar
  (List.range (low.length + 1)).any (fun i =>
    (i == low.length || low.getD i ' ' == '?') && endsWithExtL (low.take i))

/-- Strategies 2-4 of the extractor: selector-collected `img` sources
filtered to image-like ones (extension pattern, or containing `albums/`
or `fullsize`), then anchors whose `href` matches the extension
pattern. -/
def extractFromBody (doc : Doc) (page_url : String) : Option String :=
  let img_like := doc.selImgSrcs.filter
    (fun src => imgExtMatch src || strContains src "albums/" || strContains src "fullsize")
  match img_like with
  | src :: _ => some (urljoin page_url src)
  | [] =>
    match doc.anchorHrefs.find? (fun href => imgExtMatch href) with
    | some href => some (urljoin page_url href)
    | none => none

/-- Model of `extract_image_url_from_html`: `og:image` first (when present with a
non-empty `content`), then the body strategies; `none` when nothing
matches. -/
def extract_image_url_from_html (doc : Doc) (page_url : String) : Option String :=
  match doc.ogImage with
  | some content =>
    if content ≠ "" then some (urljoin page_url content)
    else extractFromBody doc page_url
  | none => extractFromBody doc page_url

/-! ### HTTP transport, filesystem and effect model

The HTTP transport and the filesystem are external collaborators; an
`Env` fixes their behavior for one crawl (deterministic oracles), and a
`World` carries the file set and an ordered trace of the effects
performed. -/

/-- One HTTP response: status code, `Content-Type` header (with `""` for
an absent header, as `headers.get("Content-Type", "")`), and the parsed
body. -/
structure HttpResp where
  status : Nat
  contentType : String
  doc : Doc

/-- The effect trace alphabet. -/
inductive Event
  | mkdir (dir : String)
  | get (url : String)
  | head (url : String)
  | write (path : String)
  | unlink (path : String)
  deriving Repr, DecidableEq

/-- Environment oracles: `net url` is the response to a GET (`none`
models a transport error), `headCT url` the content type learned by a
successful HEAD probe (`none` models a failed or non-200 probe), and
`writeFault path` tells whether streaming a body to `path` raises an
I/O error partway through. -/
structure Env where
  net : String → Option HttpResp
  headCT : String → Option String
  writeFault : String → Bool

/-- Mutable world: the set of files on disk (the only persisted state)
and the effect trace. -/
structure World where
  fs : List String
  events : List Event

/-- Append one event to the trace. -/
def World.log (w : World) (e : Event) : World := ⟨w.fs, w.events ++ [e]⟩

/-- Model of `fetch(url, session)`: a GET that returns the response on HTTP 200
and `None` on 403/404, any other status, or a transport error.  The GET
is recorded in the trace whatever the outcome. -/
def fetchW (env : Env) (w : World) (url : String) : Option HttpResp × World :=
  let w' := w.log (Event.get url)
  match env.net url with
  | some r =>
    if r.status = 200 then (some r, w')
    else if r.status = 403 ∨ r.status = 404 then (none, w')
    else (none, w')
  | none => (none, w')

/-- Model of `is_image_response`: the `Content-Type` header starts with
`image/`. -/
def is_image_response (r : HttpResp) : Bool :=
  ("image/".data).isPrefixOf (strLower r.contentType).data

/-- The on-disk path `download_image` computes for an image URL, output
directory and filename stem. -/
def downloadPath (env : Env) (out_dir img_url filename_stem : String) : String :=
  out_dir ++ "/" ++ sanitize_filename (filename_stem ++ guess_ext img_url (env.headCT img_url))

/-- Model of `download_image(img_url, out_dir, filename_stem, session)`: HEAD
probe for the content type, compute the sanitized filename, return
success at once if the file exists, otherwise GET and stream to disk,
deleting the partial file if the write faults. -/
def download_image (env : Env) (w : World) (img_url out_dir filename_stem : String) :
    Bool × World :=
  let w1 := w.log (Event.head img_url)
  let path := downloadPath env out_dir img_url filename_stem
  if path ∈ w1.fs then (true, w1)
  else
    match fetchW env w1 img_url with
    | (none, w2) => (false, w2)
    | (some _, w2) =>
      if env.writeFault path then
        (false, ⟨((path :: w2.fs).filter (fun q => q != path)),
          w2.events ++ [Event.write path, Event.unlink path]⟩)
      else
        (true, ⟨path :: w2.fs, w2.events ++ [Event.write path]⟩)

/-- Model of `build_page_url(base_url, pid, category)`: Coppermine
(`displayimage.php`) and Piwigo (`picture.php`) dialects, detected by a
substring check on the lowercased base; unrecognized bases fall back to
the Coppermine form. -/
def build_page_url (base_url : String) (pid : Int) (category : Option Int) : String :=
  let lower := strLower base_url
  if strContains lower "displayimage.php" then
    base_url ++ "?pid=" ++ toString pid ++ "&fullsize=1"
  else if strContains lower "picture.php" then
    match category with
    | some cat => base_url ++ "?/" ++ toString pid ++ "/category/" ++ toString cat
    | none => base_url ++ "?/" ++ toString pid
  else
    base_url ++ "?pid=" ++ toString pid ++ "&fullsize=1"

/-! ### The sequential crawl engine (`crawl`) -/

/-- The arguments of `crawl` that stay fixed across iterations (the
politeness delay and verbosity only affect timing and logging and are
not modelled). -/
structure CrawlConfig where
  base_url : String
  start_pid : Int
  end_pid : Option Int
  out : String
  max_misses : Int
  category : Option Int
  include_kw : List String
  exclude_kw : List String
  include_any : Bool
  filter_on : String
  dry_run : Bool

/-- The engine's per-run mutable state (`misses`, `pid`, `total_ok`,
`total_seen`) plus the world it acts on. -/
structure CrawlState where
  misses : Int
  pid : Int
  total_ok : Nat
  total_seen : Nat
  world : World

/-- Classification of one iteration, mirroring the `[OK]`/`[SKIP]`/
`[MISS]` report lines. -/
inductive Outcome
  | ok
  | skip
  | miss
  deriving Repr, DecidableEq

/-- The body of one range-mode iteration after the page fetch decision:
returns the `ok` flag, the `skipped` flag and the updated world.
Mirrors the branch on direct-image response / HTML page / failed fetch,
with keyword filtering and (outside dry-run) the download. -/
def crawlBranch (env : Env) (cfg : CrawlConfig) (inc exc : List String)
    (pid : Int) (w : World) : Bool × Bool × World :=
  let page_url := build_page_url cfg.base_url pid cfg.category
  let target := if cfg.filter_on = "filename" then "filename" else "url"
  match fetchW env w page_url with
  | (some r, w1) =>
    if is_image_response r then
      let v := eval_keywords page_url inc exc cfg.include_any target
      if v.ok = false then (false, true, w1)
      else if cfg.dry_run then (true, false, w1)
      else
        let d := download_image env w1 page_url cfg.out ("pid_" ++ toString pid)
        (d.1, false, d.2)
    else
      match extract_image_url_from_html r.doc page_url with
      | some img_url =>
        let v := eval_keywords img_url inc exc cfg.include_any target
        if v.ok = false then (false, true, w1)
        else if cfg.dry_run then (true, false, w1)
        else
          let d := download_image env w1 img_url cfg.out ("pid_" ++ toString pid)
          (d.1, false, d.2)
      | none => (false, false, w1)
  | (none, w1) => (false, false, w1)

/-- One full loop iteration: fetch and classify, update the counters
(`OK` resets the miss streak, `SKIP` leaves it, `MISS` increments it),
and compute the early-stop flag `end_pid is None and misses >=
max_misses`. -/
def crawlIter (env : Env) (cfg : CrawlConfig) (inc exc : List String)
    (st : CrawlState) : CrawlState × Outcome × Bool :=
  let b := crawlBranch env cfg inc exc st.pid st.world
  let okB := b.1
  let skippedB := b.2.1
  let w2 := b.2.2
  let misses' := if okB then 0 else if skippedB then st.misses else st.misses + 1
  let totalOk' := if okB then st.total_ok + 1 else st.total_ok
  let outcome := if okB then Outcome.ok else if skippedB then Outcome.skip else Outcome.miss
  let stop := cfg.end_pid.isNone && decide (cfg.max_misses ≤ misses')
  (⟨misses', st.pid, totalOk', st.total_seen + 1, w2⟩, outcome, stop)

/-- The range-exhaustion test at the top of the loop
(`end_pid is not None and pid > end_pid`). -/
def rangeDone (cfg : CrawlConfig) (st : CrawlState) : Bool :=
  match cfg.end_pid with
  | some e => decide (st.pid > e)
  | none => false

/-- The `while True` loop of `crawl`, with explicit fuel (the loop can
be unbounded when no end ID is given; exhausted fuel returns the state
reached so far).  On each round: break on range exhaustion, run one
iteration, break on the miss-streak stop, else advance the ID. -/
def crawlLoop (env : Env) (cfg : CrawlConfig) (inc exc : List String) :
    Nat → CrawlState → CrawlState
  | 0, st => st
  | fuel + 1, st =>
    if rangeDone cfg st then st
    else
      let r := crawlIter env cfg inc exc st
      if r.2.2 then r.1
      else crawlLoop env cfg inc exc fuel
        ⟨r.1.misses, r.1.pid + 1, r.1.total_ok, r.1.total_seen, r.1.world⟩

/-- Model of `crawl`: create the output directory, normalize the keyword filters
once, and run the loop from the start ID with fresh counters. -/
def crawl (env : Env) (cfg : CrawlConfig) (fuel : Nat) (w : World) : CrawlState :=
  let w1 := w.log (Event.mkdir cfg.out)
  let inc := parse_keywords cfg.include_kw
  let exc := parse_keywords cfg.exclude_kw
  crawlLoop env cfg inc exc fuel ⟨0, cfg.start_pid, 0, 0, w1⟩

/-! ### Listing-mode crawl (`crawl_list_page`) -/

/-- Duplicate removal standing in for Python's `set()` (the candidate
collection is sorted afterwards, so only the underlying set matters). -/
def dedupStr : List String → List String
  | [] => []
  | s :: t => if s ∈ t then dedupStr t else s :: dedupStr t

/-- Code-point lexicographic `≤` on strings (Python string ordering). -/
def strLeL : List Char → List Char → Bool
  | [], _ => true
  | _ :: _, [] => false
  | a :: as, b :: bs => if a = b then strLeL as bs else decide (a.toNat < b.toNat)

/-- Insert into an ascending list. -/
def insertSorted (x : String) : List String → List String
  | [] => [x]
  | y :: t => if strLeL x.data y.data then x :: y :: t else y :: insertSorted x t

/-- Python `sorted(...)` on strings (ascending, lexicographically
by code point); computed by insertion sort. -/
def pySorted : List String → List String
  | [] => []
  | x :: t => insertSorted x (pySorted t)

/-- Format `f"list_{idx:05d}"`: zero-padded five-digit index. -/
def listStem (idx : Nat) : String :=
  let s := toString idx
  "list_" ++ String.mk (List.replicate (5 - s.length) '0') ++ s

/-- The per-candidate loop of `crawl_list_page`: filter, then (outside
dry-run) download under a `list_{idx:05d}` stem.  The `matched` and
`downloaded` counters only feed the final summary line and are not
modelled. -/
def listLoop (env : Env) (out : String) (inc exc : List String) (any_mode : Bool)
    (target : String) (dry_run : Bool) : List String → Nat → World → World
  | [], _, w => w
  | url :: rest, idx, w =>
    let v := eval_keywords url inc exc any_mode target
    if v.ok = false then listLoop env out inc exc any_mode target dry_run rest (idx + 1) w
    else if dry_run then listLoop env out inc exc any_mode target dry_run rest (idx + 1) w
    else
      let d := download_image env w url out (listStem idx)
      listLoop env out inc exc any_mode target dry_run rest (idx + 1) d.2

/-- Model of `crawl_list_page`: create the output directory, fetch the single
listing page, collect the unique image-like URLs from `<img src>` and
`<a href>` (resolved against the base URL), and run the filter/download
pipeline over them in sorted order. -/
def crawl_list_page (env : Env) (base_url out : String) (includeKw excludeKw : List String)
    (include_any : Bool) (filter_on : String) (dry_run : Bool) (w : World) : World :=
  let w1 := w.log (Event.mkdir out)
  let inc := parse_keywords includeKw
  let exc := parse_keywords excludeKw
  match fetchW env w1 base_url with
  | (none, w2) => w2
  | (some r, w2) =>
    let candidates :=
      if is_image_response r then [base_url]
      else
        let hrefs := dedupStr
          (r.doc.imgSrcs.map (urljoin base_url) ++ r.doc.anchorHrefs.map (urljoin base_url))
        hrefs.filter imgExtMatch
    let target := if filter_on = "filename" then "filename" else "url"
    listLoop env out inc exc include_any target dry_run (pySorted candidates) 0 w2

/-! ### Concrete fixtures (used to instantiate the theorems) -/

/-- A server on which every request fails (every ID is a miss). -/
def envNone : Env := ⟨fun _ => none, fun _ => none, fun _ => false⟩

/-- A server answering every GET with a direct image response, with
failing HEAD probes and no write faults. -/
def envImage : Env := ⟨fun _ => some ⟨200, "image/jpeg", emptyDoc⟩, fun _ => none, fun _ => false⟩

/-- A server answering every GET with an empty 200 response whose write
always faults. -/
def envFault : Env := ⟨fun _ => some ⟨200, "", emptyDoc⟩, fun _ => none, fun _ => true⟩

/-- The direct-image scenario of the spec: the Coppermine page URL for
ID 42 answers 200 `image/jpeg` on GET and HEAD. -/
def envC3 : Env :=
  ⟨fun u => if u = "https://g.example/displayimage.php?pid=42&fullsize=1"
      then some ⟨200, "image/jpeg", emptyDoc⟩ else none,
    fun u => if u = "https://g.example/displayimage.php?pid=42&fullsize=1"
      then some "image/jpeg" else none,
    fun _ => false⟩

/-- Range-mode configuration starting at ID 100 with no end ID and
`max_misses = 3`. -/
def baseCfg : CrawlConfig :=
  ⟨"https://g.example/displayimage.php", 100, none, "out", 3, none, [], [], false, "auto", false⟩

/-- Configuration for the direct-image scenario: exactly ID 42. -/
def cfgC3 : CrawlConfig :=
  ⟨"https://g.example/displayimage.php", 42, some 42, "out", 50, none, [], [], false, "auto", false⟩

/-! ## Theorems -/

/-- C4: for every candidate URL, include list, exclude list (of
non-empty tokens, the `KeywordSet` invariant), mode and target, if any
excluded token is a substring of the normalized target then the verdict
is a fail with reason `excluded: {token}` and that token recorded —
regardless of the include list, so excludes take precedence over
includes. -/
theorem eval_keywords_exclude_precedence (img_url : String)
    (includes excludes : List String) (any_mode : Bool) (target : String)
    (hne : ∀ t ∈ excludes, t ≠ "")
    (hex : ∃ ex ∈ excludes, strContains (normTarget img_url target) ex = true) :
    (eval_keywords img_url includes excludes any_mode target).ok = false
    ∧ ∃ tok ∈ excludes,
        strContains (normTarget img_url target) tok = true
        ∧ eval_keywords img_url includes excludes any_mode target =
            ⟨false, "excluded: " ++ tok, normTarget img_url target, 0,
              includes.length, some tok⟩ := by
  have hsome : (excludes.find? (fun ex =>
      ex ≠ "" && strContains (normTarget img_url target) ex)).isSome := by
    rw [List.find?_isSome]
    obtain ⟨ex, hmem, hc⟩ := hex
    exact ⟨ex, hmem, by simp [hne ex hmem, hc]⟩
  obtain ⟨tok, hfind⟩ := Option.isSome_iff_exists.mp hsome
  have hmem := List.mem_of_find?_eq_some hfind
  have hp := List.find?_some hfind
  have hcon : strContains (normTarget img_url target) tok = true := by
    have h' := hp
    simp only [Bool.and_eq_true] at h'
    exact h'.2
  have hval : eval_keywords img_url includes excludes any_mode target =
      ⟨false, "excluded: " ++ tok, normTarget img_url target, 0,
        includes.length, some tok⟩ := by
    simp only [eval_keywords]
    rw [hfind]
  exact ⟨by rw [hval], tok, hmem, hcon, hval⟩

/-- Witness for C4: with includes `["red","car"]` (both present in the
target) and exclude `["car"]`, the verdict on `red_car.png` is the
exclude failure. -/
theorem eval_keywords_exclude_precedence_witness :
    (∀ t ∈ (["car"] : List String), t ≠ "")
    ∧ (eval_keywords "https://h/albums/red_car.png" ["red", "car"] ["car"]
        false "url").ok = false :=
  ⟨by decide,
    (eval_keywords_exclude_precedence "https://h/albums/red_car.png"
      ["red", "car"] ["car"] false "url" (by decide)
      ⟨"car", by decide, by decide⟩).1⟩

/-- C7: absent an exclude hit, an empty include list passes; otherwise,
with `hits` the number of include tokens contained in the normalized
target, "any" mode passes iff `hits ≥ 1` and "all" mode passes iff
`hits` equals the number of include tokens. -/
theorem eval_keywords_include_semantics (img_url : String)
    (includes excludes : List String) (any_mode : Bool) (target : String)
    (hex : ∀ ex ∈ excludes, ex = "" ∨ strContains (normTarget img_url target) ex = false) :
    (includes = [] → (eval_keywords img_url includes excludes any_mode target).ok = true)
    ∧ (includes ≠ [] → any_mode = true →
        ((eval_keywords img_url includes excludes any_mode target).ok = true ↔
          1 ≤ includes.countP (fun inc => strContains (normTarget img_url target) inc)))
    ∧ (includes ≠ [] → any_mode = false →
        ((eval_keywords img_url includes excludes any_mode target).ok = true ↔
          includes.countP (fun inc => strContains (normTarget img_url target) inc) =
            includes.length)) := by
  have hnone : excludes.find? (fun ex =>
      ex ≠ "" && strContains (normTarget img_url target) ex) = none := by
    rw [List.find?_eq_none]
    intro x hx
    rcases hex x hx with h | h <;> simp [h]
  refine ⟨?_, ?_, ?_⟩
  · intro h
    simp only [eval_keywords]
    rw [hnone]
    simp [h]
  · intro h ha
    simp only [eval_keywords]
    rw [hnone]
    simp [h, ha]
  · intro h ha
    simp only [eval_keywords]
    rw [hnone]
    simp [h, ha]

/-- Witness for C7: with includes `["red","car"]`, a target containing
only "red" passes in "any" mode and fails in "all" mode; an empty
include list passes. -/
theorem eval_keywords_include_semantics_witness :
    (eval_keywords "https://h/albums/red_sky.png" [] [] false "url").ok = true
    ∧ (eval_keywords "https://h/albums/red_sky.png" ["red", "car"] [] true "url").ok = true
    ∧ (eval_keywords "https://h/albums/red_sky.png" ["red", "car"] [] false "url").ok = false := by
  refine ⟨?_, ?_, ?_⟩
  · exact (eval_keywords_include_semantics "https://h/albums/red_sky.png" [] []
      false "url" (by decide)).1 rfl
  · exact ((eval_keywords_include_semantics "https://h/albums/red_sky.png" ["red", "car"] []
      true "url" (by decide)).2.1 (by decide) rfl).mpr (by decide)
  · have h := ((eval_keywords_include_semantics "https://h/albums/red_sky.png" ["red", "car"] []
      false "url" (by decide)).2.2 (by decide) rfl)
    refine Bool.eq_false_iff.mpr (fun htr => ?_)
    have hc := h.mp htr
    revert hc
    decide

/-- Counterexample for C5: the URL `cover.PNG` has trailing segment
`.PNG`, whose length and characters satisfy the acceptance condition,
yet `guess_ext` returns the lowercased `.png`, not the segment `.PNG`
itself. -/
theorem guess_ext_counterexample :
    afterLastDot (urlPath "https://gallery.example/cover.PNG") = ".PNG"
    ∧ extOk ".PNG" = true
    ∧ guess_ext "https://gallery.example/cover.PNG" none = ".png"
    ∧ (".png" : String) ≠ ".PNG" := by decide

/-- C5 (amended: the URL-derived segment is returned in lowercase):
`guess_ext` follows the three-step priority — (1) the lowercased
trailing segment from the URL path's last dot when it is at most 6
characters of alphanumerics/dots/underscores, (2) else the mapped
extension of a declared content type known to the image-subtype map,
(3) else `.jpg`; and a `.png` URL with declared `image/jpeg` resolves
to `.png`. -/
theorem guess_ext_priority (url : String) (content_type : Option String) :
    (strContains (urlPath url) "." = true →
      extOk (strLower (afterLastDot (urlPath url))) = true →
      guess_ext url content_type = strLower (afterLastDot (urlPath url)))
    ∧ ((strContains (urlPath url) "." = false ∨
        extOk (strLower (afterLastDot (urlPath url))) = false) →
      ∀ ct e, content_type = some ct → ct ≠ "" →
        IMG_EXT_FROM_CTYPE.lookup (ctypeKey ct) = some e →
        guess_ext url content_type = e)
    ∧ ((strContains (urlPath url) "." = false ∨
        extOk (strLower (afterLastDot (urlPath url))) = false) →
      (content_type = none ∨ content_type = some "" ∨
        ∀ ct, content_type = some ct → IMG_EXT_FROM_CTYPE.lookup (ctypeKey ct) = none) →
      guess_ext url content_type = ".jpg")
    ∧ guess_ext "https://gallery.example/images/photo.png" (some "image/jpeg") = ".png" := by
  refine ⟨?_, ?_, ?_, by decide⟩
  · intro h1 h2
    simp [guess_ext, h1, h2]
  · rintro (h | h) ct e hct hne hl <;> subst hct <;>
      by_cases hc : strContains (urlPath url) "." = true <;>
      simp_all [guess_ext]
  · intro hfu hct
    have hnone : (if strContains (urlPath url) "." = true then
        (if extOk (strLower (afterLastDot (urlPath url))) = true then
          some (strLower (afterLastDot (urlPath url))) else none)
        else none) = (none : Option String) := by
      rcases hfu with h | h <;> by_cases hc : strContains (urlPath url) "." = true <;>
        simp_all
    rcases hct with hct | hct | hct
    · subst hct
      simp only [guess_ext]
      rw [hnone]
    · subst hct
      simp only [guess_ext]
      rw [hnone]
      simp
    · rcases content_type with _ | ct
      · simp only [guess_ext]
        rw [hnone]
      · have hl := hct ct rfl
        simp only [guess_ext]
        rw [hnone]
        by_cases hne : ct = "" <;> simp [hne, hl]

/-- Witness for C5: priority (1) fires on a URL with `.png`, priority
(2) fires on an extensionless URL with content type
`image/png; charset=x`, and priority (3) yields `.jpg` when neither
applies. -/
theorem guess_ext_priority_witness :
    guess_ext "https://h/a/photo.png" (some "image/gif") = ".png"
    ∧ guess_ext "https://h/noext" (some "image/png; charset=x") = ".png"
    ∧ guess_ext "https://h/noext" none = ".jpg" := by
  refine ⟨?_, ?_, ?_⟩
  · exact (guess_ext_priority "https://h/a/photo.png" (some "image/gif")).1
      (by decide) (by decide)
  · exact (guess_ext_priority "https://h/noext" (some "image/png; charset=x")).2.1
      (Or.inl (by decide)) "image/png; charset=x" ".png" rfl (by decide) (by decide)
  · exact (guess_ext_priority "https://h/noext" none).2.2.1
      (Or.inl (by decide)) (Or.inl rfl)

/-- C6: the extractor applies its strategies in strict priority order —
a present, non-empty `og:image` content is resolved against the page
URL and returned immediately, before any `img` or anchor strategy; and
when no strategy succeeds the extractor returns `none` rather than
failing. -/
theorem extract_strategy_priority (doc : Doc) (page_url : String) :
    (∀ c, doc.ogImage = some c → c ≠ "" →
      extract_image_url_from_html doc page_url = some (urljoin page_url c))
    ∧ ((doc.ogImage = none ∨ doc.ogImage = some "") →
      (∀ src ∈ doc.selImgSrcs, imgExtMatch src = false
        ∧ strContains src "albums/" = false ∧ strContains src "fullsize" = false) →
      (∀ href ∈ doc.anchorHrefs, imgExtMatch href = false) →
      extract_image_url_from_html doc page_url = none) := by
  constructor
  · intro c hog hc
    simp [extract_image_url_from_html, hog, hc]
  · intro hog hsrc href
    have hfilter : doc.selImgSrcs.filter
        (fun src => imgExtMatch src || strContains src "albums/" || strContains src "fullsize")
        = [] := by
      rw [List.filter_eq_nil_iff]
      intro a ha
      simp [(hsrc a ha).1, (hsrc a ha).2.1, (hsrc a ha).2.2]
    have hfind : doc.anchorHrefs.find? (fun href => imgExtMatch href) = none := by
      rw [List.find?_eq_none]
      intro a ha
      simp [href a ha]
    rcases hog with hog | hog <;>
      simp [extract_image_url_from_html, hog, extractFromBody, hfilter, hfind]

/-- Witness for C6: an `og:image` of `/a/b.png` wins over an `img`
candidate, and a document with no matching strategy yields `none`. -/
theorem extract_strategy_priority_witness :
    extract_image_url_from_html ⟨some "/a/b.png", ["albums/x.gif"], [], []⟩
      "https://g.example/d.php" =
      some (urljoin "https://g.example/d.php" "/a/b.png")
    ∧ extract_image_url_from_html ⟨none, ["foo.txt"], [], ["a.html"]⟩
      "https://g.example/d.php" = none :=
  ⟨(extract_strategy_priority ⟨some "/a/b.png", ["albums/x.gif"], [], []⟩
      "https://g.example/d.php").1 "/a/b.png" rfl (by decide),
    (extract_strategy_priority ⟨none, ["foo.txt"], [], ["a.html"]⟩
      "https://g.example/d.php").2 (Or.inl rfl) (by decide) (by decide)⟩

/-! ### Helper lemmas about the downloader and the file set -/

/-- Logging an event does not touch the file set. -/
theorem log_fs (w : World) (e : Event) : (w.log e).fs = w.fs := rfl

/-- Removing a non-member changes nothing. -/
theorem filter_ne_of_not_mem {a : String} {l : List String} (h : a ∉ l) :
    l.filter (fun q => q != a) = l :=
  List.filter_eq_self.mpr (fun q hq => by
    simp only [bne_iff_ne, ne_eq, decide_eq_true_eq]
    rintro rfl
    exact h hq)

/-- When the computed path already exists, `download_image` succeeds at
once: only the HEAD probe is logged (no GET, no write) and the file set
is untouched. -/
theorem download_image_exists (env : Env) (w : World) (img_url out stem : String)
    (h : downloadPath env out img_url stem ∈ w.fs) :
    download_image env w img_url out stem = (true, w.log (Event.head img_url)) := by
  simp [download_image, World.log, h]

/-- A download either leaves the file set alone or adds exactly the
computed path. -/
theorem download_image_fs_cases (env : Env) (w : World) (u o s : String) :
    (download_image env w u o s).2.fs = w.fs ∨
    (download_image env w u o s).2.fs = downloadPath env o u s :: w.fs := by
  by_cases h : downloadPath env o u s ∈ w.fs
  · rw [download_image_exists env w u o s h]
    exact Or.inl rfl
  · unfold download_image
    rcases hn : env.net u with _ | r
    · simp [fetchW, hn, World.log, h]
    · by_cases hs : r.status = 200
      · by_cases hf : env.writeFault (downloadPath env o u s)
        · simp [fetchW, hn, hs, hf, World.log, h, filter_ne_of_not_mem h]
        · simp [fetchW, hn, hs, hf, World.log, h]
      · simp [fetchW, hn, hs, World.log, h]

/-- The file set only grows across a download. -/
theorem download_image_fs_mono (env : Env) (w : World) (u o s : String) :
    w.fs ⊆ (download_image env w u o s).2.fs := by
  rcases download_image_fs_cases env w u o s with h | h <;> rw [h]
  · exact List.Subset.refl _
  · exact List.subset_cons_self _ _

/-- Replaying a download against any file set that contains the first
run's result leaves that file set unchanged (the dedup check, the
deterministic GET outcome, or the repeated write fault prevent any new
file). -/
theorem download_image_fs_preserve (env : Env) (u o s : String) (w w' : World)
    (hsub : (download_image env w u o s).2.fs ⊆ w'.fs) :
    (download_image env w' u o s).2.fs = w'.fs := by
  by_cases h2 : downloadPath env o u s ∈ w'.fs
  · rw [download_image_exists env w' u o s h2]
    rfl
  · by_cases h1 : downloadPath env o u s ∈ w.fs
    · refine absurd (hsub ?_) h2
      rw [download_image_exists env w u o s h1]
      exact h1
    · unfold download_image
      rcases hn : env.net u with _ | r
      · simp [fetchW, hn, World.log, h2]
      · by_cases hs : r.status = 200
        · by_cases hf : env.writeFault (downloadPath env o u s)
          · simp [fetchW, hn, hs, hf, World.log, h2, filter_ne_of_not_mem h2]
          · exfalso
            apply h2
            apply hsub
            simp [download_image, fetchW, hn, hs, hf, World.log, h1]
        · simp [fetchW, hn, hs, World.log, h2]

/-! ### Helper lemmas about the crawl engine -/

/-- On an all-failing server, one iteration is a MISS: the counter
increments, one GET of the built page URL is logged, and nothing else
changes. -/
theorem crawlIter_allmiss (env : Env) (cfg : CrawlConfig) (inc exc : List String)
    (st : CrawlState) (hnet : ∀ u, env.net u = none) :
    crawlIter env cfg inc exc st =
      (⟨st.misses + 1, st.pid, st.total_ok, st.total_seen + 1,
        st.world.log (Event.get (build_page_url cfg.base_url st.pid cfg.category))⟩,
       Outcome.miss,
       cfg.end_pid.isNone && decide (cfg.max_misses ≤ st.misses + 1)) := by
  simp [crawlIter, crawlBranch, fetchW, hnet, World.log]

/-- The stop flag of an iteration is the miss-streak condition on the
resulting counter. -/
theorem crawlIter_stop (env : Env) (cfg : CrawlConfig) (inc exc : List String)
    (st : CrawlState) :
    (crawlIter env cfg inc exc st).2.2 =
      (cfg.end_pid.isNone && decide (cfg.max_misses ≤ (crawlIter env cfg inc exc st).1.misses)) := by
  simp [crawlIter]

/-- One iteration keeps the ID; its world is the branch's world. -/
theorem crawlIter_pid (env : Env) (cfg : CrawlConfig) (inc exc : List String)
    (st : CrawlState) :
    (crawlIter env cfg inc exc st).1.pid = st.pid := rfl

/-- The world after an iteration is the world after its branch. -/
theorem crawlIter_world (env : Env) (cfg : CrawlConfig) (inc exc : List String)
    (st : CrawlState) :
    (crawlIter env cfg inc exc st).1.world =
      (crawlBranch env cfg inc exc st.pid st.world).2.2 := rfl

/-- The file set only grows across one branch. -/
theorem crawlBranch_fs_mono (env : Env) (cfg : CrawlConfig) (inc exc : List String)
    (pid : Int) (w : World) :
    w.fs ⊆ (crawlBranch env cfg inc exc pid w).2.2.fs := by
  unfold crawlBranch
  generalize (if cfg.filter_on = "filename" then "filename" else "url") = tgt
  generalize hpu : build_page_url cfg.base_url pid cfg.category = pu
  rcases hn : env.net pu with _ | r
  · simp only [fetchW, hn]
    exact List.Subset.refl _
  · by_cases hs : r.status = 200
    · simp only [fetchW, hn, hs, if_true]
      by_cases himg : is_image_response r = true
      · simp only [himg, if_true]
        by_cases hv : (eval_keywords pu inc exc cfg.include_any tgt).ok = false
        · simp only [hv, if_true]
          exact List.Subset.refl _
        · simp only [hv, if_false]
          by_cases hd : cfg.dry_run = true
          · simp only [hd, if_true]
            exact List.Subset.refl _
          · simp only [hd, if_false]
            exact download_image_fs_mono env (w.log (Event.get pu)) _ _ _
      · simp only [himg, Bool.false_eq_true, if_false]
        rcases hx : extract_image_url_from_html r.doc pu with _ | u
        · exact List.Subset.refl _
        · simp only []
          by_cases hv : (eval_keywords u inc exc cfg.include_any tgt).ok = false
          · simp only [hv, if_true]
            exact List.Subset.refl _
          · simp only [hv, if_false]
            by_cases hd : cfg.dry_run = true
            · simp only [hd, if_true]
              exact List.Subset.refl _
            · simp only [hd, if_false]
              exact download_image_fs_mono env (w.log (Event.get pu)) _ _ _
    · simp only [fetchW, hn, hs, if_false, ite_self]
      exact List.Subset.refl _

/-- Replaying one branch against a file set that contains the first
run's post-branch files leaves it unchanged. -/
theorem crawlBranch_fs_preserve (env : Env) (cfg : CrawlConfig) (inc exc : List String)
    (pid : Int) (w w' : World)
    (hsub : (crawlBranch env cfg inc exc pid w).2.2.fs ⊆ w'.fs) :
    (crawlBranch env cfg inc exc pid w').2.2.fs = w'.fs := by
  unfold crawlBranch at hsub ⊢
  rw [show (if cfg.filter_on = "filename" then "filename" else "url") =
    (if cfg.filter_on = "filename" then "filename" else "url") from rfl] at hsub ⊢
  generalize (if cfg.filter_on = "filename" then "filename" else "url") = tgt at hsub ⊢
  generalize hpu : build_page_url cfg.base_url pid cfg.category = pu at hsub ⊢
  rcases hn : env.net pu with _ | r
  · simp only [fetchW, hn]
    rfl
  · by_cases hs : r.status = 200
    · simp only [fetchW, hn, hs, if_true] at hsub ⊢
      by_cases himg : is_image_response r = true
      · simp only [himg, if_true] at hsub ⊢
        by_cases hv : (eval_keywords pu inc exc cfg.include_any tgt).ok = false
        · simp only [hv, if_true] at hsub ⊢
          rfl
        · simp only [hv, if_false] at hsub ⊢
          by_cases hd : cfg.dry_run = true
          · simp only [hd, if_true] at hsub ⊢
            rfl
          · simp only [hd, if_false] at hsub ⊢
            exact download_image_fs_preserve env _ _ _ _ _ hsub
      · simp only [himg, Bool.false_eq_true, if_false] at hsub ⊢
        rcases hx : extract_image_url_from_html r.doc pu with _ | u
        · rfl
        · rw [hx] at hsub
          simp only [] at hsub ⊢
          by_cases hv : (eval_keywords u inc exc cfg.include_any tgt).ok = false
          · simp only [hv, if_true] at hsub ⊢
            rfl
          · simp only [hv, if_false] at hsub ⊢
            by_cases hd : cfg.dry_run = true
            · simp only [hd, if_true] at hsub ⊢
              rfl
            · simp only [hd, if_false] at hsub ⊢
              exact download_image_fs_preserve env _ _ _ _ _ hsub
    · simp only [fetchW, hn, hs, if_false, ite_self]
      rfl

/-- The file set only grows along the crawl loop. -/
theorem crawlLoop_fs_mono (env : Env) (cfg : CrawlConfig) (inc exc : List String) :
    ∀ (fuel : Nat) (st : CrawlState),
      st.world.fs ⊆ (crawlLoop env cfg inc exc fuel st).world.fs := by
  intro fuel
  induction fuel with
  | zero => intro st; exact List.Subset.refl _
  | succ f ih =>
    intro st
    rw [crawlLoop]
    by_cases hr : rangeDone cfg st = true
    · simp [hr]
    · simp only [hr, Bool.false_eq_true, if_false]
      have hb : st.world.fs ⊆ (crawlIter env cfg inc exc st).1.world.fs := by
        rw [crawlIter_world]
        exact crawlBranch_fs_mono env cfg inc exc st.pid st.world
      by_cases hstop : (crawlIter env cfg inc exc st).2.2 = true
      · simp only [hstop, if_true, reduceIte]
        exact hb
      · simp only [hstop, Bool.false_eq_true, if_false, reduceIte]
        exact hb.trans (ih ⟨(crawlIter env cfg inc exc st).1.misses,
          (crawlIter env cfg inc exc st).1.pid + 1,
          (crawlIter env cfg inc exc st).1.total_ok,
          (crawlIter env cfg inc exc st).1.total_seen,
          (crawlIter env cfg inc exc st).1.world⟩)

/-- With an end ID set, replaying the loop from the same starting ID
against the final file set of a previous run leaves it unchanged. -/
theorem crawlLoop_fs_preserve (env : Env) (cfg : CrawlConfig) (inc exc : List String)
    (e : Int) (hend : cfg.end_pid = some e) :
    ∀ (fuel : Nat) (st1 st2 : CrawlState), st2.pid = st1.pid →
      (crawlLoop env cfg inc exc fuel st1).world.fs ⊆ st2.world.fs →
      (crawlLoop env cfg inc exc fuel st2).world.fs = st2.world.fs := by
  have hstop : ∀ st, (crawlIter env cfg inc exc st).2.2 = false := by
    intro st
    rw [crawlIter_stop, hend]
    rfl
  intro fuel
  induction fuel with
  | zero => intro st1 st2 hpid hsub; rfl
  | succ f ih =>
    intro st1 st2 hpid hsub
    have hrange : rangeDone cfg st2 = rangeDone cfg st1 := by
      unfold rangeDone
      rw [hend, hpid]
    rw [crawlLoop] at hsub ⊢
    by_cases hr : rangeDone cfg st1 = true
    · rw [hrange, hr] at *
      simp
    · rw [hrange] at *
      simp only [hr, Bool.false_eq_true, if_false, hstop] at hsub ⊢
      have hb1 : (crawlBranch env cfg inc exc st1.pid st1.world).2.2.fs ⊆ st2.world.fs := by
        rw [← crawlIter_world]
        exact (crawlLoop_fs_mono env cfg inc exc f
          ⟨(crawlIter env cfg inc exc st1).1.misses,
            (crawlIter env cfg inc exc st1).1.pid + 1,
            (crawlIter env cfg inc exc st1).1.total_ok,
            (crawlIter env cfg inc exc st1).1.total_seen,
            (crawlIter env cfg inc exc st1).1.world⟩).trans hsub
      have hb2 : (crawlBranch env cfg inc exc st2.pid st2.world).2.2.fs = st2.world.fs := by
        rw [hpid]
        exact crawlBranch_fs_preserve env cfg inc exc st1.pid st1.world st2.world hb1
      have hnext := ih ⟨(crawlIter env cfg inc exc st1).1.misses,
          (crawlIter env cfg inc exc st1).1.pid + 1,
          (crawlIter env cfg inc exc st1).1.total_ok,
          (crawlIter env cfg inc exc st1).1.total_seen,
          (crawlIter env cfg inc exc st1).1.world⟩
        ⟨(crawlIter env cfg inc exc st2).1.misses,
          (crawlIter env cfg inc exc st2).1.pid + 1,
          (crawlIter env cfg inc exc st2).1.total_ok,
          (crawlIter env cfg inc exc st2).1.total_seen,
          (crawlIter env cfg inc exc st2).1.world⟩
        (by simp [crawlIter_pid, hpid])
        (by
          show (crawlLoop env cfg inc exc f _).world.fs ⊆ (crawlIter env cfg inc exc st2).1.world.fs
          rw [crawlIter_world env cfg inc exc st2, hb2]
          exact hsub)
      rw [hnext]
      rw [crawlIter_world env cfg inc exc st2, hb2]

/-! ### Helper lemmas about the crawl engine (dry-run traces) -/

/-- C1: (i) in range mode with no end ID, whenever an iteration brings
the consecutive-miss counter to the threshold, the loop stops with that
iteration's state — no further ID is processed; (ii) with
`max_misses = 3` on an all-failing server, exactly the three page URLs
for the first three IDs are requested, however much fuel remains;
(iii) a SKIP outcome leaves the counter unchanged; (iv) an OK outcome
resets it to zero. -/
theorem crawl_miss_streak_termination :
    (∀ (env : Env) (cfg : CrawlConfig) (inc exc : List String) (st : CrawlState) (fuel : Nat),
      cfg.end_pid = none →
      cfg.max_misses ≤ (crawlIter env cfg inc exc st).1.misses →
      crawlLoop env cfg inc exc (fuel + 1) st = (crawlIter env cfg inc exc st).1)
    ∧ (∀ (env : Env) (cfg : CrawlConfig) (fuel : Nat) (w : World),
      cfg.end_pid = none → cfg.max_misses = 3 →
      (∀ u, env.net u = none) → 3 ≤ fuel →
      (crawl env cfg fuel w).world.events =
        w.events ++ [Event.mkdir cfg.out,
          Event.get (build_page_url cfg.base_url cfg.start_pid cfg.category),
          Event.get (build_page_url cfg.base_url (cfg.start_pid + 1) cfg.category),
          Event.get (build_page_url cfg.base_url (cfg.start_pid + 2) cfg.category)])
    ∧ (∀ (env : Env) (cfg : CrawlConfig) (inc exc : List String) (st : CrawlState),
      (crawlIter env cfg inc exc st).2.1 = Outcome.skip →
      (crawlIter env cfg inc exc st).1.misses = st.misses)
    ∧ (∀ (env : Env) (cfg : CrawlConfig) (inc exc : List String) (st : CrawlState),
      (crawlIter env cfg inc exc st).2.1 = Outcome.ok →
      (crawlIter env cfg inc exc st).1.misses = 0) := by
  refine ⟨?_, ?_, ?_, ?_⟩
  · intro env cfg inc exc st fuel hend hm
    have hstop : (crawlIter env cfg inc exc st).2.2 = true := by
      rw [crawlIter_stop, hend]
      simp [hm]
    simp [crawlLoop, rangeDone, hend, hstop]
  · intro env cfg fuel w hend hmax hnet hf
    obtain ⟨k, rfl⟩ : ∃ k, fuel = k + 3 := ⟨fuel - 3, by omega⟩
    show (crawlLoop env cfg (parse_keywords cfg.include_kw) (parse_keywords cfg.exclude_kw)
      (k + 2 + 1) ⟨0, cfg.start_pid, 0, 0, w.log (Event.mkdir cfg.out)⟩).world.events = _
    rw [crawlLoop]
    simp only [rangeDone, hend, Bool.false_eq_true, if_false,
      crawlIter_allmiss _ _ _ _ _ hnet, hmax]
    norm_num
    rw [crawlLoop]
    simp only [rangeDone, hend, Bool.false_eq_true, if_false,
      crawlIter_allmiss _ _ _ _ _ hnet, hmax]
    norm_num
    rw [crawlLoop]
    simp only [rangeDone, hend, Bool.false_eq_true, if_false,
      crawlIter_allmiss _ _ _ _ _ hnet, hmax]
    rw [show cfg.start_pid + 1 + 1 = cfg.start_pid + 2 from by ring]
    norm_num [World.log, List.append_assoc]
  · intro env cfg inc exc st h
    rcases hok : (crawlBranch env cfg inc exc st.pid st.world).1 <;>
      rcases hsk : (crawlBranch env cfg inc exc st.pid st.world).2.1 <;>
      simp [crawlIter, hok, hsk] at h ⊢
  · intro env cfg inc exc st h
    rcases hok : (crawlBranch env cfg inc exc st.pid st.world).1 <;>
      rcases hsk : (crawlBranch env cfg inc exc st.pid st.world).2.1 <;>
      simp [crawlIter, hok, hsk] at h ⊢

/-- Witness for C1: on an all-failing server starting at ID 100 the
trace is exactly `mkdir` plus the three page GETs; reaching the
threshold stops the loop; a filtered-out candidate keeps the counter at
5; a dry-run match resets it to 0. -/
theorem crawl_miss_streak_termination_witness :
    (crawl envNone baseCfg 3 ⟨[], []⟩).world.events =
      [] ++ [Event.mkdir baseCfg.out,
        Event.get (build_page_url baseCfg.base_url baseCfg.start_pid baseCfg.category),
        Event.get (build_page_url baseCfg.base_url (baseCfg.start_pid + 1) baseCfg.category),
        Event.get (build_page_url baseCfg.base_url (baseCfg.start_pid + 2) baseCfg.category)]
    ∧ crawlLoop envNone baseCfg [] [] 5 ⟨2, 100, 0, 0, ⟨[], []⟩⟩ =
        (crawlIter envNone baseCfg [] [] ⟨2, 100, 0, 0, ⟨[], []⟩⟩).1
    ∧ (crawlIter envImage baseCfg [] ["displayimage"] ⟨5, 1, 0, 0, ⟨[], []⟩⟩).1.misses = 5
    ∧ (crawlIter envImage
        ⟨"https://g.example/displayimage.php", 100, none, "out", 3, none, [], [], false,
          "auto", true⟩ [] [] ⟨5, 1, 0, 0, ⟨[], []⟩⟩).1.misses = 0 := by
  refine ⟨?_, ?_, ?_, ?_⟩
  · exact crawl_miss_streak_termination.2.1 envNone baseCfg 3 ⟨[], []⟩ rfl rfl
      (fun _ => rfl) (by decide)
  · exact crawl_miss_streak_termination.1 envNone baseCfg [] [] ⟨2, 100, 0, 0, ⟨[], []⟩⟩ 4
      rfl (by decide)
  · exact crawl_miss_streak_termination.2.2.1 envImage baseCfg [] ["displayimage"]
      ⟨5, 1, 0, 0, ⟨[], []⟩⟩ (by rfl)
  · exact crawl_miss_streak_termination.2.2.2 envImage
      ⟨"https://g.example/displayimage.php", 100, none, "out", 3, none, [], [], false,
        "auto", true⟩ [] [] ⟨5, 1, 0, 0, ⟨[], []⟩⟩ (by rfl)

/-- C2: (i) the downloader is idempotent through the on-disk existence
check — when the computed sanitized path already exists it returns
success with only the HEAD probe logged (in particular, no GET request
and no file-set change); (ii) hence running the crawl a second time
over the same ID range (an end ID is set, so the range alone drives
termination) into the same output directory leaves the set of files on
disk unchanged. -/
theorem download_dedup_and_crawl_idempotent :
    (∀ (env : Env) (w : World) (img_url out stem : String),
      downloadPath env out img_url stem ∈ w.fs →
      download_image env w img_url out stem = (true, w.log (Event.head img_url)))
    ∧ (∀ (env : Env) (cfg : CrawlConfig) (fuel : Nat) (w w' : World) (e : Int),
      cfg.end_pid = some e →
      w'.fs = (crawl env cfg fuel w).world.fs →
      (crawl env cfg fuel w').world.fs = w'.fs) := by
  constructor
  · exact download_image_exists
  · intro env cfg fuel w w' e hend hfs
    unfold crawl at hfs ⊢
    exact crawlLoop_fs_preserve env cfg (parse_keywords cfg.include_kw)
      (parse_keywords cfg.exclude_kw) e hend fuel
      ⟨0, cfg.start_pid, 0, 0, w.log (Event.mkdir cfg.out)⟩
      ⟨0, cfg.start_pid, 0, 0, w'.log (Event.mkdir cfg.out)⟩
      rfl (by rw [← hfs]; exact List.Subset.refl _)

/-- Witness for C2: a pre-existing `out/pid_1.jpg` makes the download a
no-GET success, and replaying a bounded crawl from the first run's file
set changes nothing. -/
theorem download_dedup_and_crawl_idempotent_witness :
    download_image envNone ⟨["out/pid_1.jpg"], []⟩ "http://h/x" "out" "pid_1" =
      (true, World.log ⟨["out/pid_1.jpg"], []⟩ (Event.head "http://h/x"))
    ∧ (crawl envNone
        ⟨"https://g.example/displayimage.php", 100, some 101, "out", 3, none, [], [], false,
          "auto", false⟩ 5 ⟨[], []⟩).world.fs = ([] : List String) := by
  constructor
  · exact download_dedup_and_crawl_idempotent.1 envNone ⟨["out/pid_1.jpg"], []⟩
      "http://h/x" "out" "pid_1" (by decide)
  · exact download_dedup_and_crawl_idempotent.2 envNone
      ⟨"https://g.example/displayimage.php", 100, some 101, "out", 3, none, [], [], false,
        "auto", false⟩ 5 ⟨[], []⟩ ⟨[], []⟩ 101 rfl (by rfl)

/-- C9: when the computed path is new, the GET succeeds, and the
streaming write faults partway, `download_image` returns `false`, the
partial file has been removed (a `write` then an `unlink` are traced),
and no file remains at the computed path. -/
theorem download_write_failure_cleanup (env : Env) (w : World)
    (img_url out stem : String) (r : HttpResp)
    (hnotin : downloadPath env out img_url stem ∉ w.fs)
    (hnet : env.net img_url = some r) (h200 : r.status = 200)
    (hfault : env.writeFault (downloadPath env out img_url stem) = true) :
    (download_image env w img_url out stem).1 = false
    ∧ downloadPath env out img_url stem ∉ (download_image env w img_url out stem).2.fs
    ∧ (download_image env w img_url out stem).2.fs = w.fs
    ∧ (download_image env w img_url out stem).2.events =
        w.events ++ [Event.head img_url, Event.get img_url,
          Event.write (downloadPath env out img_url stem),
          Event.unlink (downloadPath env out img_url stem)] := by
  have hres : download_image env w img_url out stem =
      (false, ⟨w.fs,
        (w.events ++ [Event.head img_url] ++ [Event.get img_url]) ++
          [Event.write (downloadPath env out img_url stem),
            Event.unlink (downloadPath env out img_url stem)]⟩) := by
    unfold download_image
    simp [fetchW, hnet, h200, hfault, World.log, hnotin, filter_ne_of_not_mem hnotin]
  rw [hres]
  refine ⟨rfl, hnotin, rfl, by simp⟩

/-- Witness for C9: a faulting disk leaves no `out/pid_1.png` behind and
reports failure, with the cleanup visible in the trace. -/
theorem download_write_failure_cleanup_witness :
    (download_image envFault ⟨[], []⟩ "http://h/x.png" "out" "pid_1").1 = false
    ∧ "out/pid_1.png" ∉ (download_image envFault ⟨[], []⟩ "http://h/x.png" "out" "pid_1").2.fs
    ∧ (download_image envFault ⟨[], []⟩ "http://h/x.png" "out" "pid_1").2.fs = [] := by
  have h := download_write_failure_cleanup envFault ⟨[], []⟩ "http://h/x.png" "out" "pid_1"
    ⟨200, "", emptyDoc⟩ (by decide) rfl rfl rfl
  exact ⟨h.1, by simpa using h.2.1, h.2.2.1⟩

/-! ### Dry-run helper lemmas -/

/-- In dry-run mode a branch performs exactly one GET: the downloader is
never called, so the world only gains the page GET event. -/
theorem crawlBranch_dry (env : Env) (cfg : CrawlConfig) (inc exc : List String)
    (pid : Int) (w : World) (hdry : cfg.dry_run = true) :
    (crawlBranch env cfg inc exc pid w).2.2 =
      w.log (Event.get (build_page_url cfg.base_url pid cfg.category)) := by
  unfold crawlBranch
  generalize (if cfg.filter_on = "filename" then "filename" else "url") = tgt
  generalize build_page_url cfg.base_url pid cfg.category = pu
  rcases hn : env.net pu with _ | r
  · simp only [fetchW, hn]
  · by_cases hs : r.status = 200
    · simp only [fetchW, hn, hs, if_true]
      by_cases himg : is_image_response r = true
      · simp only [himg, if_true]
        by_cases hv : (eval_keywords pu inc exc cfg.include_any tgt).ok = false
        · simp only [hv, if_true]
        · simp only [hv, Bool.true_eq_false, if_false, hdry, if_true]
      · simp only [himg, Bool.false_eq_true, if_false]
        rcases hx : extract_image_url_from_html r.doc pu with _ | u
        · rfl
        · simp only []
          by_cases hv : (eval_keywords u inc exc cfg.include_any tgt).ok = false
          · simp only [hv, if_true]
          · simp only [hv, Bool.true_eq_false, if_false, hdry, if_true]
    · simp only [fetchW, hn, hs, if_false, ite_self]

/-- In dry-run mode the loop appends only GET events and never touches
the file set. -/
theorem crawlLoop_dry (env : Env) (cfg : CrawlConfig) (inc exc : List String)
    (hdry : cfg.dry_run = true) :
    ∀ (fuel : Nat) (st : CrawlState),
      ∃ tail, (crawlLoop env cfg inc exc fuel st).world.events = st.world.events ++ tail
        ∧ (∀ ev ∈ tail, ∃ u, ev = Event.get u)
        ∧ (crawlLoop env cfg inc exc fuel st).world.fs = st.world.fs := by
  intro fuel
  induction fuel with
  | zero =>
    intro st
    refine ⟨[], ?_, ?_, ?_⟩
    · simp [crawlLoop]
    · simp
    · rfl
  | succ f ih =>
    intro st
    rw [crawlLoop]
    by_cases hr : rangeDone cfg st = true
    · simp only [hr, if_true]
      refine ⟨[], ?_, ?_, ?_⟩
      · simp
      · simp
      · trivial
    · simp only [hr, Bool.false_eq_true, if_false]
      have hw : (crawlIter env cfg inc exc st).1.world =
          st.world.log (Event.get (build_page_url cfg.base_url st.pid cfg.category)) := by
        rw [crawlIter_world]
        exact crawlBranch_dry env cfg inc exc st.pid st.world hdry
      by_cases hstop : (crawlIter env cfg inc exc st).2.2 = true
      · simp only [hstop, if_true]
        exact ⟨[Event.get (build_page_url cfg.base_url st.pid cfg.category)],
          by rw [hw]; rfl, by simp, by rw [hw]; rfl⟩
      · simp only [hstop, Bool.false_eq_true, if_false]
        obtain ⟨tail, hev, hget, hfs⟩ := ih ⟨(crawlIter env cfg inc exc st).1.misses,
          (crawlIter env cfg inc exc st).1.pid + 1,
          (crawlIter env cfg inc exc st).1.total_ok,
          (crawlIter env cfg inc exc st).1.total_seen,
          (crawlIter env cfg inc exc st).1.world⟩
        refine ⟨Event.get (build_page_url cfg.base_url st.pid cfg.category) :: tail, ?_, ?_, ?_⟩
        · rw [hev]
          show (crawlIter env cfg inc exc st).1.world.events ++ tail = _
          rw [hw]
          simp [World.log]
        · intro ev hev'
          rcases List.mem_cons.mp hev' with h | h
          · exact ⟨_, h⟩
          · exact hget ev h
        · rw [hfs]
          show (crawlIter env cfg inc exc st).1.world.fs = st.world.fs
          rw [hw]
          rfl

/-- In dry-run mode the listing loop is the identity on the world. -/
theorem listLoop_dry (env : Env) (out : String) (inc exc : List String)
    (anyb : Bool) (tgt : String) :
    ∀ (l : List String) (idx : Nat) (w : World),
      listLoop env out inc exc anyb tgt true l idx w = w := by
  intro l
  induction l with
  | nil => intro idx w; rfl
  | cons x t ih =>
    intro idx w
    rw [listLoop]
    by_cases hv : (eval_keywords x inc exc anyb tgt).ok = false
    · simp only [hv, if_true]
      exact ih _ _
    · simp only [hv, Bool.false_eq_true, if_false, if_true]
      exact ih _ _

/-- C10: in dry-run mode, both crawl modes create the output directory
first and then perform only page GETs: the downloader is never invoked
and the file set is exactly the initial one.  In listing mode the trace
is precisely `mkdir` followed by the single listing-page GET. -/
theorem dry_run_frame :
    (∀ (env : Env) (cfg : CrawlConfig) (fuel : Nat) (w : World), cfg.dry_run = true →
      (crawl env cfg fuel w).world.fs = w.fs
      ∧ ∃ tail, (crawl env cfg fuel w).world.events = w.events ++ Event.mkdir cfg.out :: tail
          ∧ ∀ ev ∈ tail, ∃ u, ev = Event.get u)
    ∧ (∀ (env : Env) (base_url out : String) (ik ek : List String) (ia : Bool)
        (fo : String) (w : World),
      crawl_list_page env base_url out ik ek ia fo true w =
        ⟨w.fs, w.events ++ [Event.mkdir out, Event.get base_url]⟩) := by
  constructor
  · intro env cfg fuel w hdry
    obtain ⟨tail, hev, hget, hfs⟩ := crawlLoop_dry env cfg
      (parse_keywords cfg.include_kw) (parse_keywords cfg.exclude_kw) hdry fuel
      ⟨0, cfg.start_pid, 0, 0, w.log (Event.mkdir cfg.out)⟩
    refine ⟨hfs, tail, ?_, hget⟩
    show (crawlLoop env cfg _ _ fuel _).world.events = _
    rw [hev]
    simp [World.log]
  · intro env base_url out ik ek ia fo w
    unfold crawl_list_page
    rcases hn : env.net base_url with _ | r
    · simp only [fetchW, hn, World.log]
      simp [List.append_assoc]
    · by_cases hs : r.status = 200
      · simp only [fetchW, hn, hs, if_true]
        rw [listLoop_dry]
        simp [World.log, List.append_assoc]
      · simp only [fetchW, hn, hs, if_false, ite_self]
        simp [World.log, List.append_assoc]

/-- Witness for C10: a dry-run over a live gallery leaves an empty file
set, and a listing-page dry-run on a failing server produces exactly the
`mkdir` and the page GET. -/
theorem dry_run_frame_witness :
    (crawl envImage
      ⟨"https://g.example/displayimage.php", 100, some 101, "out", 3, none, [], [], false,
        "auto", true⟩ 5 ⟨[], []⟩).world.fs = ([] : List String)
    ∧ crawl_list_page envNone "https://h/wall/" "out" [] [] false "auto" true ⟨[], []⟩ =
        ⟨[], [Event.mkdir "out", Event.get "https://h/wall/"]⟩ := by
  constructor
  · exact (dry_run_frame.1 envImage
      ⟨"https://g.example/displayimage.php", 100, some 101, "out", 3, none, [], [], false,
        "auto", true⟩ 5 ⟨[], []⟩ rfl).1
  · exact dry_run_frame.2 envNone "https://h/wall/" "out" [] [] false "auto" ⟨[], []⟩

/-- Counterexample for C3: in the direct-image scenario (base
`https://g.example/displayimage.php`, ID 42, the page URL answering 200
`image/jpeg`), no file named `pid_42.jpg` is created — the engine
writes `pid_42.php`, because `guess_ext` prefers the `.php` segment of
the URL path over the declared `image/jpeg` content type. -/
theorem direct_image_scenario_counterexample :
    "out/pid_42.jpg" ∉ (crawl envC3 cfgC3 2 ⟨[], []⟩).world.fs
    ∧ (crawl envC3 cfgC3 2 ⟨[], []⟩).world.fs = ["out/pid_42.php"] := by
  constructor
  · decide
  · decide

/-- C3 (amended: the engine downloads to `pid_42.php`): with base URL
`https://g.example/displayimage.php` and ID 42, a 200 `image/jpeg`
answer for `?pid=42&fullsize=1` is treated as a direct image candidate
(the page URL itself is downloaded — exactly one page GET appears and
the body GET targets the same URL) and the engine reports OK, storing
the file as `pid_42.php` since the URL-path extension outranks the
declared content type. -/
theorem direct_image_scenario_php :
    (crawl envC3 cfgC3 2 ⟨[], []⟩).total_ok = 1
    ∧ (crawl envC3 cfgC3 2 ⟨[], []⟩).world.fs = ["out/pid_42.php"]
    ∧ (crawl envC3 cfgC3 2 ⟨[], []⟩).world.events =
        [Event.mkdir "out",
          Event.get "https://g.example/displayimage.php?pid=42&fullsize=1",
          Event.head "https://g.example/displayimage.php?pid=42&fullsize=1",
          Event.get "https://g.example/displayimage.php?pid=42&fullsize=1",
          Event.write "out/pid_42.php"]
    ∧ guess_ext "https://g.example/displayimage.php?pid=42&fullsize=1" (some "image/jpeg")
        = ".php" := by
  refine ⟨by decide, by decide, by decide, by decide⟩

/-! ### Normalizer helper lemmas -/

/-- Applying `Char.ofNat` then `Char.toNat` is the identity below the surrogate
range. -/
theorem charToNat_ofNat {n : Nat} (h : n < 55296) : (Char.ofNat n).toNat = n := by
  have hv : n.isValidChar := Or.inl h
  rw [Char.ofNat, dif_pos hv]
  rfl

/-- Characters with equal code points are equal. -/
theorem charToNat_inj {c d : Char} (h : c.toNat = d.toNat) : c = d := by
  rw [← Char.ofNat_toNat c, ← Char.ofNat_toNat d, h]

/-- The code point of the modelled `str.lower`. -/
theorem pyLowerChar_toNat (c : Char) :
    (pyLowerChar c).toNat =
      if (65 ≤ c.toNat ∧ c.toNat ≤ 90) ∨
          (192 ≤ c.toNat ∧ c.toNat ≤ 222 ∧ c.toNat ≠ 215) then c.toNat + 32
      else c.toNat := by
  unfold pyLowerChar
  by_cases h1 : 65 ≤ c.toNat ∧ c.toNat ≤ 90
  · rw [if_pos h1, if_pos (Or.inl h1), charToNat_ofNat (by omega)]
  · by_cases h2 : 192 ≤ c.toNat ∧ c.toNat ≤ 222 ∧ c.toNat ≠ 215
    · rw [if_neg h1, if_pos h2, if_pos (Or.inr h2), charToNat_ofNat (by omega)]
    · rw [if_neg h1, if_neg h2, if_neg (by tauto)]

/-- Lowercasing is idempotent. -/
theorem pyLower_idem (c : Char) : pyLowerChar (pyLowerChar c) = pyLowerChar c := by
  apply charToNat_inj
  rw [pyLowerChar_toNat (pyLowerChar c), pyLowerChar_toNat c]
  split_ifs <;> omega

/-- Lowercasing maps only `%` to `%`. -/
theorem pyLower_percent_iff (c : Char) : pyLowerChar c = '%' ↔ c = '%' := by
  have h37 : ('%' : Char).toNat = 37 := rfl
  constructor
  · intro h
    apply charToNat_inj
    have hx := congrArg Char.toNat h
    rw [pyLowerChar_toNat, h37] at hx
    rw [h37]
    revert hx
    split_ifs with hr
    · intro hx
      omega
    · exact fun hx => hx
  · rintro rfl
    decide

/-- Lowercasing preserves hex-digit-ness. -/
theorem isHex_pyLower (c : Char) : isHexChar (pyLowerChar c) = isHexChar c := by
  unfold isHexChar
  rw [pyLowerChar_toNat]
  split_ifs with hr
  all_goals simp only [decide_eq_decide]
  all_goals omega

/-- Lowercasing preserves hex digit values. -/
theorem hexVal_pyLower (c : Char) : hexVal (pyLowerChar c) = hexVal c := by
  unfold hexVal
  rw [pyLowerChar_toNat]
  split_ifs <;> omega

/-- The non-escape step of `unquoteL` for a head that cannot open an
escape. -/
theorem unquoteL_cons_short (c : Char) (rest : List Char)
    (h : ∀ (h1 h2 : Char) (r : List Char), c = '%' → rest = h1 :: h2 :: r → False) :
    unquoteL (c :: rest) = c :: unquoteL rest :=
  unquoteL.eq_2 c rest h

/-- Percent-decoding returns the empty string only on the empty
string. -/
theorem unquoteL_nil_iff (l : List Char) : unquoteL l = [] ↔ l = [] := by
  induction l using unquoteL.induct with
  | case1 h1 h2 rest hhex ih =>
    rw [unquoteL.eq_1, if_pos hhex]
    simp
  | case2 h1 h2 rest hhex ih =>
    rw [unquoteL.eq_1, if_neg hhex]
    simp
  | case3 c rest hcon ih =>
    rw [unquoteL.eq_2 c rest hcon]
    simp
  | case4 => simp [unquoteL]

/-- Percent-decoding is the identity on `%`-free strings. -/
theorem unquoteL_id_of_no_percent (l : List Char) (h : '%' ∉ l) : unquoteL l = l := by
  induction l using unquoteL.induct with
  | case1 h1 h2 rest hhex ih => simp at h
  | case2 h1 h2 rest hhex ih => simp at h
  | case3 c rest hcon ih =>
    rw [unquoteL.eq_2 c rest hcon, ih (fun hm => h (List.mem_cons_of_mem c hm))]
  | case4 => rfl

/-- Lowering before percent-decoding changes nothing once the result is
lowered again: hex escapes are case-insensitive and literal characters
are lowered either way. -/
theorem map_pyLower_unquote (l : List Char) :
    (unquoteL (l.map pyLowerChar)).map pyLowerChar = (unquoteL l).map pyLowerChar := by
  have hpc : pyLowerChar '%' = '%' := by decide
  induction l using unquoteL.induct with
  | case1 h1 h2 rest hhex ih =>
    simp only [List.map_cons, hpc]
    rw [unquoteL.eq_1, unquoteL.eq_1,
      if_pos (by rw [isHex_pyLower, isHex_pyLower]; exact hhex), if_pos hhex]
    simp only [List.map_cons, ih, hexVal_pyLower]
  | case2 h1 h2 rest hhex ih =>
    simp only [List.map_cons, hpc]
    rw [unquoteL.eq_1, unquoteL.eq_1,
      if_neg (by rw [isHex_pyLower, isHex_pyLower]; exact hhex), if_neg hhex]
    simp only [List.map_cons] at ih
    simp only [List.map_cons, ih, hpc]
  | case3 c rest hcon ih =>
    have hcon' : ∀ (h1 h2 : Char) (r : List Char),
        pyLowerChar c = '%' → rest.map pyLowerChar = h1 :: h2 :: r → False := by
      intro h1 h2 r hpc' hmap
      have hc : c = '%' := (pyLower_percent_iff c).mp hpc'
      rcases rest with _ | ⟨a, _ | ⟨b, t⟩⟩ <;> simp at hmap
      exact hcon a b t hc rfl
    simp only [List.map_cons]
    rw [unquoteL.eq_2 _ _ hcon', unquoteL.eq_2 c rest hcon]
    simp only [List.map_cons, ih, pyLower_idem]
  | case4 => rfl

/-- Every decomposition entry sits in the Latin-1 letter block. -/
theorem nfkdTable_range : ∀ t ∈ nfkdTable, 192 ≤ t.1 ∧ t.1 ≤ 252 := by decide

/-- Characters without a table entry decompose to themselves. -/
theorem nfkdChar_eq_of_no_entry (c : Char) (h : ∀ t ∈ nfkdTable, t.1 ≠ c.toNat) :
    nfkdChar c = [c] := by
  unfold nfkdChar
  rw [List.find?_eq_none.mpr]
  intro t ht
  simp [h t ht]

/-- A lowercase-block entry always has an uppercase partner 32 below. -/
theorem nfkdTable_pairs :
    ∀ t ∈ nfkdTable, 224 ≤ t.1 → ∃ t' ∈ nfkdTable, t'.1 = t.1 - 32 := by decide

/-- The key commuting fact: decompose-and-strip after lowering equals
lowering after decompose-and-strip. -/
theorem deaccent_pyLower (c : Char) :
    deaccentChar (pyLowerChar c) = (deaccentChar c).map pyLowerChar := by
  by_cases htab : ∃ t ∈ nfkdTable, t.1 = c.toNat
  · obtain ⟨t, htm, hte⟩ := htab
    have hc : c = Char.ofNat t.1 := by rw [hte, Char.ofNat_toNat]
    subst hc
    clear hte
    revert htm
    revert t
    decide
  · push_neg at htab
    have hnfc : nfkdChar c = [c] := nfkdChar_eq_of_no_entry c htab
    have hblk : (65 ≤ c.toNat ∧ c.toNat ≤ 90) ∨
        (192 ≤ c.toNat ∧ c.toNat ≤ 222 ∧ c.toNat ≠ 215) ∨
        ((pyLowerChar c) = c) := by
      by_cases h1 : 65 ≤ c.toNat ∧ c.toNat ≤ 90
      · exact Or.inl h1
      · by_cases h2 : 192 ≤ c.toNat ∧ c.toNat ≤ 222 ∧ c.toNat ≠ 215
        · exact Or.inr (Or.inl h2)
        · refine Or.inr (Or.inr (charToNat_inj ?_))
          rw [pyLowerChar_toNat, if_neg (by tauto)]
    rcases hblk with h1 | h2 | hid
    · have hlow : (pyLowerChar c).toNat = c.toNat + 32 := by
        rw [pyLowerChar_toNat, if_pos (Or.inl h1)]
      have hnfd : nfkdChar (pyLowerChar c) = [pyLowerChar c] := by
        refine nfkdChar_eq_of_no_entry _ (fun t ht => ?_)
        have := nfkdTable_range t ht
        omega
      have hc1 : isCombining (pyLowerChar c) = false := by
        simp only [isCombining, decide_eq_false_iff_not]
        omega
      have hc2 : isCombining c = false := by
        simp only [isCombining, decide_eq_false_iff_not]
        omega
      simp [deaccentChar, hnfc, hnfd, hc1, hc2]
    · have hlow : (pyLowerChar c).toNat = c.toNat + 32 := by
        rw [pyLowerChar_toNat, if_pos (Or.inr h2)]
      have hnfd : nfkdChar (pyLowerChar c) = [pyLowerChar c] := by
        refine nfkdChar_eq_of_no_entry _ (fun t ht heq => ?_)
        have hrange := nfkdTable_range t ht
        obtain ⟨t', ht', heq'⟩ := nfkdTable_pairs t ht (by omega)
        exact htab t' ht' (by omega)
      have hc1 : isCombining (pyLowerChar c) = false := by
        simp only [isCombining, decide_eq_false_iff_not]
        omega
      have hc2 : isCombining c = false := by
        simp only [isCombining, decide_eq_false_iff_not]
        omega
      simp [deaccentChar, hnfc, hnfd, hc1, hc2]
    · rw [hid]
      by_cases hcb : isCombining c = true
      · simp [deaccentChar, hnfc, hcb]
      · simp only [Bool.not_eq_true] at hcb
        simp [deaccentChar, hnfc, hcb, hid]

/-- Decompose-and-strip across a lowered list, reassociated through the
per-character commuting fact. -/
theorem stripDiac_map_lower (l : List Char) :
    (flatMapL nfkdChar (l.map pyLowerChar)).filter (fun d => !isCombining d) =
      flatMapL (fun c => (deaccentChar c).map pyLowerChar) l := by
  induction l with
  | nil => rfl
  | cons c t ih =>
    simp only [List.map_cons, flatMapL, List.filter_append, ih]
    congr 1
    exact deaccent_pyLower c

/-- Applying a list-valued function pointwise-equal along `Forall₂`
yields equal concatenations. -/
theorem flatMapL_congr {g : Char → List Char} {R : Char → Char → Prop}
    (hg : ∀ c c', R c c' → g c = g c') :
    ∀ {l l' : List Char}, List.Forall₂ R l l' → flatMapL g l = flatMapL g l' := by
  intro l l' h
  induction h with
  | nil => rfl
  | cons hR _ ih => simp only [flatMapL, hg _ _ hR, ih]

/-- The function `normCore` depends on its input only through its lowered form. -/
theorem normCore_congr_lower {l l' : List Char}
    (h : l.map pyLowerChar = l'.map pyLowerChar) : normCore l = normCore l' := by
  unfold normCore
  rw [h]

/-- Strings with equal character data are equal. -/
theorem string_eq_of_data {s t : String} (h : s.data = t.data) : s = t :=
  congrArg String.mk h

/-- Emptiness of a string through its data. -/
theorem string_empty_iff (s : String) : s = "" ↔ s.data = [] :=
  ⟨fun h => by subst h; rfl, fun h => string_eq_of_data (by simpa using h)⟩

/-- Counterexample for C8: `"%4e"` and `"%4é"` differ only in the accent
on the final letter (their characters are pointwise
decomposition-equivalent), yet the normalizer maps them to `"n"` and
`"4e"`: stripping the accent destroys the `%4e` percent-escape that the
unaccented string contains, so accent-insensitivity fails across
percent-escapes. -/
theorem normalize_accent_counterexample :
    List.Forall₂ (fun c c' => deaccentChar c = deaccentChar c')
      ("%4e" : String).data ("%4é" : String).data
    ∧ normalize_for_match "%4e" = "n"
    ∧ normalize_for_match "%4é" = "4e"
    ∧ normalize_for_match "%4e" ≠ normalize_for_match "%4é" := by
  refine ⟨?_, by decide, by decide, by decide⟩
  exact List.Forall₂.cons (by decide)
    (List.Forall₂.cons (by decide) (List.Forall₂.cons (by decide) List.Forall₂.nil))

/-- C8 (amended: accent-insensitivity is restricted to `%`-free strings,
since an accent difference can create or destroy a percent-escape):
the normalizer gives identical output on strings that percent-decode
identically; on strings that differ only in letter case (equal after
lowercasing); and on `%`-free strings whose characters are pointwise
equal after decomposition and combining-mark removal.  Moreover it is a
total function computing, in order: percent-decode, lowercase, NFKD
decomposition with combining-mark removal, non-alphanumeric-run
replacement by single spaces, and whitespace collapse with trim. -/
theorem normalize_invariance :
    (∀ s s' : String, unquoteL s.data = unquoteL s'.data →
      normalize_for_match s = normalize_for_match s')
    ∧ (∀ s s' : String, s.data.map pyLowerChar = s'.data.map pyLowerChar →
      normalize_for_match s = normalize_for_match s')
    ∧ (∀ s s' : String,
      List.Forall₂ (fun c c' => deaccentChar c = deaccentChar c') s.data s'.data →
      '%' ∉ s.data → '%' ∉ s'.data →
      normalize_for_match s = normalize_for_match s')
    ∧ (∀ s : String, normalize_for_match s =
      if s = "" then ""
      else String.mk (stripEndsL pyIsSpace (replaceRunsWith (fun c => !pyIsSpace c) ' '
        (replaceRunsWith isLowerAlnum ' '
          ((flatMapL nfkdChar ((unquoteL s.data).map pyLowerChar)).filter
            (fun d => !isCombining d)))))) := by
  refine ⟨?_, ?_, ?_, fun s => rfl⟩
  · intro s s' h
    have hiff : s = "" ↔ s' = "" := by
      rw [string_empty_iff, string_empty_iff, ← unquoteL_nil_iff s.data,
        ← unquoteL_nil_iff s'.data, h]
    by_cases hs : s = ""
    · rw [hs, (hiff.mp hs)]
    · unfold normalize_for_match
      rw [if_neg hs, if_neg (fun hx => hs (hiff.mpr hx)), h]
  · intro s s' h
    have hiff : s = "" ↔ s' = "" := by
      rw [string_empty_iff, string_empty_iff]
      constructor <;> intro hx
      · have := h
        rw [hx] at this
        simpa using this.symm
      · have := h
        rw [hx] at this
        simpa using this
    by_cases hs : s = ""
    · rw [hs, (hiff.mp hs)]
    · unfold normalize_for_match
      rw [if_neg hs, if_neg (fun hx => hs (hiff.mpr hx))]
      refine congrArg String.mk (normCore_congr_lower ?_)
      calc (unquoteL s.data).map pyLowerChar
          = (unquoteL (s.data.map pyLowerChar)).map pyLowerChar :=
            (map_pyLower_unquote s.data).symm
        _ = (unquoteL (s'.data.map pyLowerChar)).map pyLowerChar := by rw [h]
        _ = (unquoteL s'.data).map pyLowerChar := map_pyLower_unquote s'.data
  · intro s s' h hp hp'
    have hiff : s = "" ↔ s' = "" := by
      rw [string_empty_iff, string_empty_iff]
      constructor <;> intro hx
      · rw [hx] at h
        exact (List.forall₂_nil_left_iff.mp h)
      · rw [hx] at h
        exact (List.forall₂_nil_right_iff.mp h)
    by_cases hs : s = ""
    · rw [hs, (hiff.mp hs)]
    · unfold normalize_for_match
      rw [if_neg hs, if_neg (fun hx => hs (hiff.mpr hx)),
        unquoteL_id_of_no_percent s.data hp, unquoteL_id_of_no_percent s'.data hp']
      refine congrArg String.mk ?_
      simp only [normCore]
      rw [stripDiac_map_lower, stripDiac_map_lower,
        flatMapL_congr (fun c c' hcc => by rw [hcc]) h]

/-- Witness for C8: `"a%20b"` and `"a b"` decode identically, `"CAFE"`
and `"cafe"` differ only in case, `"café"` and `"cafe"` differ only in
an accent and contain no `%`; each pair normalizes identically. -/
theorem normalize_invariance_witness :
    normalize_for_match "a%20b" = normalize_for_match "a b"
    ∧ normalize_for_match "CAFE" = normalize_for_match "cafe"
    ∧ normalize_for_match "café" = normalize_for_match "cafe" := by
  refine ⟨?_, ?_, ?_⟩
  · exact normalize_invariance.1 "a%20b" "a b" (by decide)
  · exact normalize_invariance.2.1 "CAFE" "cafe" (by decide)
  · exact normalize_invariance.2.2.1 "café" "cafe"
      (List.Forall₂.cons (by decide) (List.Forall₂.cons (by decide)
        (List.Forall₂.cons (by decide) (List.Forall₂.cons (by decide) List.Forall₂.nil))))
      (by decide) (by decide)

end PhotoDog
